import Mathlib

/-!
Verification development for the prefect run-orchestration engine and
log-batching worker, as described by the repository's specification and
pinned down by the test suite (`tests/test_flows.py`, `tests/test_logging.py`),
together with the `LocalFileSystem` path-confinement logic of
`src/prefect/filesystems.py`.

The engine itself (flow/task execution, retries, subflow tracking) is not
shipped in this source snapshot; only its tests are.  Those parts are
therefore modelled from the spec, with the tests' asserted behaviour as the
authority wherever the two disagree.  The `LocalFileSystem` model is a direct
translation of `filesystems.py`.
-/

namespace Prefect

/-- State types of a run, from the spec's data model (§3). -/
inductive StateType where
  | SCHEDULED | PENDING | RUNNING | COMPLETED | FAILED
  | CRASHED | CANCELLED | TIMED_OUT | PAUSED
  deriving DecidableEq, Repr

/-- Data carried by a task-run (or child-flow-run) state: nothing, a plain
return value, or a captured exception message. -/
inductive TData where
  | none
  | value (v : String)
  | exn (e : String)
  deriving DecidableEq, Repr

/-- Modelled from the spec: a task-run / child-flow-run state.  `childFlowRunId`
is the `state_details.child_flow_run_id` side channel, set only on the
synthetic task run representing a subflow call (§4.4). -/
structure TState where
  type : StateType
  message : String
  data : TData
  childFlowRunId : Option Nat := Option.none
  deriving DecidableEq, Repr

/-- Data carried by a flow-run state: nothing, a value, an exception, or the
collected states of the child calls (§4.2 step 3). -/
inductive FData where
  | none
  | value (v : String)
  | exn (e : String)
  | states (l : List TState)
  deriving DecidableEq, Repr

/-- Modelled from the spec: a flow-run state. -/
structure FState where
  type : StateType
  message : String
  data : FData
  deriving DecidableEq, Repr

/-- Outcome of one execution of a task (or child-flow) body: a returned value
or a raised error.  Bodies take the 1-based flow attempt number and the
1-based attempt number of this run, so a body may behave differently across
retries exactly as the tests' closures over run counters do. -/
def Body := Nat → Nat → Except String String

/-- Modelled from the spec (§4.3 rule 3): run one task (or child flow) with
`retriesLeft` retries remaining, starting at attempt number `attempt` within
the flow attempt `fa`.  Returns the final state and the number of body
executions. -/
def runTaskGo (body : Body) (fa : Nat) (attempt : Nat) : Nat → TState × Nat
  | 0 =>
    match body fa attempt with
    | .ok v => (⟨.COMPLETED, "", .value v, Option.none⟩, 1)
    | .error e => (⟨.FAILED, "", .exn e, Option.none⟩, 1)
  | r + 1 =>
    match body fa attempt with
    | .ok v => (⟨.COMPLETED, "", .value v, Option.none⟩, 1)
    | .error _ =>
      let (s, n) := runTaskGo body fa (attempt + 1) r
      (s, n + 1)

/-- A step of a flow body: call a task (with its own retry budget), call a
subflow (with its own retry budget), or raise when a predicate of the flow
attempt number holds, with an attempt-dependent message. -/
inductive FStep where
  | callTask (name : String) (retries : Nat) (body : Body)
  | callSub (name : String) (retries : Nat) (body : Body)
  | raiseWhen (p : Nat → Bool) (msg : Nat → String)

/-- A run record slot held under one dynamic key: the task run id assigned to
that call site and the state it last received.  Slots are kept append-only
(newest first), modelling the append-only state history of §3. -/
structure Slot where
  taskRunId : Nat
  state : TState
  deriving DecidableEq, Repr

/-- A child flow run record created for a subflow invocation (§4.4). -/
structure ChildRun where
  id : Nat
  parentTaskRunId : Nat
  state : TState
  deriving DecidableEq, Repr

/-- Engine state threaded through a flow run: a fresh-id counter, the slot
history keyed by dynamic key, the append-only list of child flow runs, and
the list of body-execution events (one task/subflow name per body execution). -/
structure EngSt where
  nextId : Nat
  slots : List (Nat × Slot)
  childRuns : List ChildRun
  events : List String
  deriving Repr

def EngSt.empty : EngSt := ⟨0, [], [], []⟩

/-- The current slot for a dynamic key: the most recent entry. -/
def lookupSlot (slots : List (Nat × Slot)) (k : Nat) : Option Slot :=
  match slots.find? (fun p => p.1 == k) with
  | Option.none => Option.none
  | some p => some p.2

/-- Modelled from the spec: whether a cached slot state may be reused on a
later invocation of the same dynamic key.  The tests pin this down: a
COMPLETED descendant is not re-executed on a flow retry
(`test_flow_retry_with_error_in_flow_and_successful_task`), any other
descendant is reset and re-run. -/
def slotReusable (s : Option Slot) : Bool :=
  match s with
  | Option.none => false
  | some sl => sl.state.type == .COMPLETED

/-- Execute the steps of one flow-body attempt in order.  `fa` is the 1-based
flow attempt, `k` the dynamic key of the next step.  Returns the engine state,
the collected call states in call order, and the raised error, if any. -/
def runSteps (steps : List FStep) (fa : Nat) (k : Nat) (st : EngSt) :
    EngSt × List TState × Option String :=
  match steps with
  | [] => (st, [], Option.none)
  | step :: rest =>
    match step with
    | .raiseWhen p msg =>
      if p fa then (st, [], some (msg fa))
      else runSteps rest fa (k + 1) st
    | .callTask name retries body =>
      let cached := lookupSlot st.slots k
      if slotReusable cached then
        match cached with
        | some sl =>
          let (st', l, r) := runSteps rest fa (k + 1) st
          (st', sl.state :: l, r)
        | Option.none => (st, [], Option.none)
      else
        let tid := match cached with
          | some sl => sl.taskRunId
          | Option.none => st.nextId
        let nextId := match cached with
          | some _ => st.nextId
          | Option.none => st.nextId + 1
        let (s, n) := runTaskGo body fa 1 retries
        let st1 : EngSt :=
          { nextId := nextId
            slots := (k, ⟨tid, s⟩) :: st.slots
            childRuns := st.childRuns
            events := st.events ++ List.replicate n name }
        let (st', l, r) := runSteps rest fa (k + 1) st1
        (st', s :: l, r)
    | .callSub name retries body =>
      let cached := lookupSlot st.slots k
      if slotReusable cached then
        match cached with
        | some sl =>
          let (st', l, r) := runSteps rest fa (k + 1) st
          (st', sl.state :: l, r)
        | Option.none => (st, [], Option.none)
      else
        let tid := match cached with
          | some sl => sl.taskRunId
          | Option.none => st.nextId
        let cid := match cached with
          | some _ => st.nextId
          | Option.none => st.nextId + 1
        let nextId := cid + 1
        let (s, n) := runTaskGo body fa 1 retries
        let syn : TState := ⟨s.type, s.message, s.data, some cid⟩
        let st1 : EngSt :=
          { nextId := nextId
            slots := (k, ⟨tid, syn⟩) :: st.slots
            childRuns := st.childRuns ++ [⟨cid, tid, s⟩]
            events := st.events ++ List.replicate n name }
        let (st', l, r) := runSteps rest fa (k + 1) st1
        (st', syn :: l, r)

/-- How the flow body's return value is determined once the steps ran:
return nothing (fall back to the collected child states, §4.2 step 4),
return a plain value, or return the last child call's state directly. -/
inductive RetKind where
  | retNone
  | retValue (v : String)
  | retLast

/-- Number of failed states among the collected child states. -/
def countFailed (l : List TState) : Nat :=
  l.countP (fun s => s.type == .FAILED)

/-- Modelled from the spec (§4.2 step 3, bullet 3): aggregate a non-empty list
of child states; FAILED with message "k/n states failed." when k of the n
states are failed, else COMPLETED; the states are kept as the data. -/
def aggregateStates (l : List TState) : FState :=
  let k := countFailed l
  if k == 0 then ⟨.COMPLETED, "", .states l⟩
  else ⟨.FAILED, s!"{k}/{l.length} states failed.", .states l⟩

/-- Lift a task state returned directly by the body into the flow's final
state (§4.2 step 3, bullet 2: "that state is used directly"). -/
def liftTState (s : TState) : FState :=
  ⟨s.type, s.message,
    match s.data with
    | .none => FData.none
    | .value v => FData.value v
    | .exn e => FData.exn e⟩

/-- Modelled from the spec: the final state of one flow-body attempt. -/
def attemptState (ret : RetKind) (collected : List TState)
    (raised : Option String) : FState :=
  match raised with
  | some e => ⟨.FAILED, "", .exn e⟩
  | Option.none =>
    match ret with
    | .retValue v => ⟨.COMPLETED, "", .value v⟩
    | .retLast =>
      match collected.getLast? with
      | Option.none => ⟨.COMPLETED, "", .none⟩
      | some s => liftTState s
    | .retNone =>
      match collected with
      | [] => ⟨.COMPLETED, "", .none⟩
      | _ => aggregateStates collected

/-- A flow specification: its retry budget, body steps, and return kind. -/
structure FlowSpec where
  retries : Nat
  steps : List FStep
  ret : RetKind

/-- Result of driving a flow run to its final state: the final state, the
engine state (run records), and the number of body executions. -/
structure FlowResult where
  final : FState
  st : EngSt
  bodyRuns : Nat

/-- Modelled from the spec (§4.3): the retry loop.  Runs one attempt; when the
final state is FAILED and retries remain, re-runs the whole body against the
surviving run records. -/
def flowLoop (spec : FlowSpec) (fa : Nat) (st : EngSt) : Nat → FlowResult
  | 0 =>
    let (st', collected, raised) := runSteps spec.steps fa 0 st
    ⟨attemptState spec.ret collected raised, st', 1⟩
  | r + 1 =>
    let (st', collected, raised) := runSteps spec.steps fa 0 st
    let fin := attemptState spec.ret collected raised
    if fin.type == .FAILED then
      let res := flowLoop spec (fa + 1) st' r
      ⟨res.final, res.st, res.bodyRuns + 1⟩
    else
      ⟨fin, st', 1⟩

/-- Modelled from the spec: run a flow from a fresh engine state; the first
attempt is number 1, matching the tests' `flow_run_count` counters. -/
def runFlow (spec : FlowSpec) : FlowResult :=
  flowLoop spec 1 EngSt.empty spec.retries

/-- Number of body executions of the task/subflow named `name` during a run. -/
def execCount (res : FlowResult) (name : String) : Nat :=
  res.st.events.count name

/-! ### Timeout supervision (§4.2), in logical time

Modelled from the spec: a blocking flow body is a sequence of instructions,
each either a blocking call of a known duration, a plain side effect, or an
engine-mediated task invocation.  A parallel watcher reports TIMED_OUT to the
caller at the deadline; the engine aborts the body at the first instruction
boundary at or after the deadline, so nothing placed after the
deadline-crossing blocking call executes. -/

/-- An instruction of a blocking flow body. -/
inductive BInstr where
  | block (d : Nat)
  | effect (name : String)
  | taskCall (name : String)
  deriving DecidableEq, Repr

/-- Result of a supervised run: final state type, the time at which the caller
receives the state, and the side effects / task invocations that executed. -/
structure TimedResult where
  final : StateType
  reportTime : Nat
  effects : List String
  tasks : List String
  deriving DecidableEq, Repr

/-- Modelled from the spec: execute instructions in order, tracking elapsed
time `t`.  The parallel watcher reports TIMED_OUT to the caller at the
deadline whenever the body has not completed by then — also when the
deadline-crossing blocking call is the body's last instruction — and the
engine aborts the body at the first instruction boundary at or after the
deadline, so nothing placed after that blocking call executes. -/
def runTimedGo (timeout : Nat) (t : Nat) (effects tasks : List String) :
    List BInstr → TimedResult
  | [] =>
    if timeout ≤ t then ⟨.TIMED_OUT, timeout, effects, tasks⟩
    else ⟨.COMPLETED, t, effects, tasks⟩
  | i :: rest =>
    if timeout ≤ t then ⟨.TIMED_OUT, timeout, effects, tasks⟩
    else
      match i with
      | .block d => runTimedGo timeout (t + d) effects tasks rest
      | .effect n => runTimedGo timeout t (effects ++ [n]) tasks rest
      | .taskCall n => runTimedGo timeout t effects (tasks ++ [n]) rest

/-- Run a blocking body under a wall-clock budget. -/
def runTimed (timeout : Nat) (body : List BInstr) : TimedResult :=
  runTimedGo timeout 0 [] [] body

/-- Total duration the body would take if left to finish. -/
def totalDuration (body : List BInstr) : Nat :=
  (body.map (fun i => match i with | .block d => d | _ => 0)).sum

/-! ### Parameter validation (§4.2 step 1, §7) -/

/-- A parameter value supplied to a flow call. -/
inductive PValue where
  | pInt (n : Int)
  | pStr (s : String)
  deriving DecidableEq, Repr

/-- A declared parameter type. -/
inductive PType where
  | tInt
  | tStr
  deriving DecidableEq, Repr

/-- Numeric value of a digit string. -/
def digitsToNat (l : List Char) : Nat :=
  l.foldl (fun n c => n * 10 + (c.toNat - 48)) 0

/-- Parse a non-empty all-digit string as an integer literal. -/
def parseIntLit (s : String) : Option Int :=
  match s.data with
  | [] => Option.none
  | l => if l.all (fun c => c.isDigit) then some (digitsToNat l) else Option.none

/-- Modelled from the spec: the parameter schema validator coerces or rejects
a supplied value against the declared type, raising a structured type error
(the tests match pydantic's "value is not a valid integer"). -/
def coerceParam : PType → PValue → Except String PValue
  | .tInt, .pInt n => .ok (.pInt n)
  | .tInt, .pStr s =>
    match parseIntLit s with
    | some n => .ok (.pInt n)
    | Option.none => .error "value is not a valid integer"
  | .tStr, .pStr s => .ok (.pStr s)
  | .tStr, .pInt n => .ok (.pStr (toString n))

/-- Validate all parameters, left to right; the first failure rejects the
whole call. -/
def validateParams : List (PType × PValue) → Except String (List PValue)
  | [] => .ok []
  | (ty, v) :: rest =>
    match coerceParam ty v with
    | .error e => .error e
    | .ok v' =>
      match validateParams rest with
      | .error e => .error e
      | .ok vs => .ok (v' :: vs)

/-- A flow as seen by the parameter-validating entry point: a retry budget, a
validation switch, declared parameter types with the supplied values, and the
body, which receives the (coerced or raw) parameter values. -/
structure PFlow where
  retries : Nat
  validate : Bool
  params : List (PType × PValue)
  body : List PValue → Except String String

/-- Drive the body with the bounded-redo policy of §4.3, counting body
executions. -/
def bodyLoop (body : List PValue → Except String String) (vs : List PValue) :
    Nat → FState × Nat
  | 0 =>
    match body vs with
    | .ok v => (⟨.COMPLETED, "", .value v⟩, 1)
    | .error e => (⟨.FAILED, "", .exn e⟩, 1)
  | r + 1 =>
    match body vs with
    | .ok v => (⟨.COMPLETED, "", .value v⟩, 1)
    | .error _ =>
      let (s, n) := bodyLoop body vs r
      (s, n + 1)

/-- Modelled from the spec: run a flow through parameter validation.  A
validation failure produces a FAILED state carrying the parameter type error
before any execution, and is never retried; with validation disabled the raw
values pass through to the body unchecked. -/
def runPFlow (f : PFlow) : FState × Nat :=
  if f.validate then
    match validateParams f.params with
    | .error e =>
      (⟨.FAILED, "Flow run received invalid parameters.",
        .exn ("ParameterTypeError: " ++ e)⟩, 0)
    | .ok vs => bodyLoop f.body vs f.retries
  else
    bodyLoop f.body (f.params.map Prod.snd) f.retries

/-! ### Log batching worker (§4.5), `OrionLogWorker` -/

/-- Lifecycle status of the log worker. -/
inductive WStatus where
  | created
  | started
  | stopped
  deriving DecidableEq, Repr

/-- Modelled from the spec: the log worker's client-visible state — lifecycle
status, the number of background drainer threads ever started, the enqueued
records, and the drained-but-unsent pending records. -/
structure LogWorker where
  status : WStatus
  drainers : Nat
  queue : List String
  pending : List String
  deriving DecidableEq, Repr

def LogWorker.new : LogWorker := ⟨.created, 0, [], []⟩

/-- Modelled from the spec: `start` — starts the background drainer on first
call, is a no-op after STARTED, and raises after STOPPED. -/
def LogWorker.start (w : LogWorker) : Except String LogWorker :=
  match w.status with
  | .created => .ok { w with status := .started, drainers := w.drainers + 1 }
  | .started => .ok w
  | .stopped => .error "The log worker cannot be started after stopping."

/-- Modelled from the spec: `stop` — signals flush-then-stop and joins the
drainer when started; a no-op otherwise (in particular a second stop, and a
stop before any start, do nothing, per `test_stop_is_idempotent`). -/
def LogWorker.stop (w : LogWorker) : LogWorker :=
  match w.status with
  | .started => { w with status := .stopped }
  | _ => w

/-- Modelled from the spec: `enqueue` — raises after STOPPED, otherwise
appends the record to the queue. -/
def LogWorker.enqueue (w : LogWorker) (r : String) : Except String LogWorker :=
  match w.status with
  | .stopped => .error "Logs cannot be enqueued after the log worker is stopped."
  | _ => .ok { w with queue := w.queue ++ [r] }

/-- A diagnostic written to the error channel on transmission failure,
recording the exception and whether the worker will retry (false when the
worker is exiting, in which case the failure is final). -/
structure ErrReport where
  error : String
  willRetry : Bool
  deriving DecidableEq, Repr

/-- Modelled from the spec: one drain cycle (`send_logs`): drains the queue
behind any earlier pending records, attempts one transmission of all of them,
clears them on success, and on failure keeps them pending (not requeued) and
reports to the error channel.  The backend is a parameter so both outcomes
are expressible.  Returns the worker, the shipped records, and the reports. -/
def LogWorker.sendLogs (w : LogWorker) (exiting : Bool)
    (backend : List String → Except String Unit) :
    LogWorker × List String × List ErrReport :=
  let toSend := w.pending ++ w.queue
  if toSend.isEmpty then
    ({ w with queue := [], pending := [] }, [], [])
  else
    match backend toSend with
    | .ok _ => ({ w with queue := [], pending := [] }, toSend, [])
    | .error e =>
      ({ w with queue := [], pending := toSend }, [], [⟨e, !exiting⟩])

/-! ### `LocalFileSystem` path confinement (`src/prefect/filesystems.py`) -/

/-- A `pathlib.Path`, as the components after splitting: the absolute flag and
the parts. -/
structure PyPath where
  absolute : Bool
  parts : List String
  deriving DecidableEq, Repr

/-- One step of POSIX path normalization: "." is dropped, ".." removes the
previous component (at the root it vanishes), anything else is kept. -/
def normStep (acc : List String) (c : String) : List String :=
  if c = "." then acc
  else if c = ".." then acc.dropLast
  else acc ++ [c]

/-- Normalize a component list, as the OS does when the file is opened and as
`Path.resolve()` does. -/
def normalizeParts (l : List String) : List String :=
  l.foldl normStep []

/-- `Path.resolve()`: make the path absolute against the working directory
(itself absolute and normalized) and normalize it. -/
def pyResolve (cwd : PyPath) (p : PyPath) : PyPath :=
  if p.absolute then ⟨true, normalizeParts p.parts⟩
  else ⟨true, normalizeParts (cwd.parts ++ p.parts)⟩

/-- `Path.expanduser()`: replace a leading "~" with the home directory. -/
def expanduser (home : PyPath) (p : PyPath) : PyPath :=
  match p.absolute, p.parts with
  | false, "~" :: rest => ⟨true, home.parts ++ rest⟩
  | _, _ => p

/-- `basepath in path.parents` for absolute, resolved paths: the basepath's
parts are a proper prefix of the path's parts. -/
def isStrictlyUnder (basepath path : List String) : Bool :=
  basepath.isPrefixOf path && decide (basepath.length < path.length)

/-- `LocalFileSystem._resolve_path` (filesystems.py lines 59-79): resolve the
base path (defaulting to the current directory), expand the user directory in
the argument; a relative argument is joined under the base path as is, an
absolute argument is resolved and rejected unless the base path is among its
parents. -/
def LocalFileSystem.resolvePath (cwd home : PyPath) (basepath : Option PyPath)
    (path : PyPath) : Except String PyPath :=
  let bp := pyResolve cwd (expanduser home (basepath.getD ⟨false, ["."]⟩))
  let p := expanduser home path
  if !p.absolute then
    .ok ⟨true, bp.parts ++ p.parts⟩
  else
    let p := pyResolve cwd p
    if isStrictlyUnder bp.parts p.parts then .ok p
    else .error "Attempted to write to path outside of the base path."

/-- The file the operating system actually opens for the returned path:
its normalized form. -/
def touchedPath (p : PyPath) : PyPath :=
  ⟨p.absolute, normalizeParts p.parts⟩

/-- `LocalFileSystem.read_path` / `write_path` (filesystems.py lines
142-169): resolve the argument, then open the resulting file (existence and
file-kind checks touch the same resolved path and are not modelled). -/
def LocalFileSystem.accessedPath (cwd home : PyPath) (basepath : Option PyPath)
    (path : PyPath) : Except String PyPath :=
  match LocalFileSystem.resolvePath cwd home basepath path with
  | .error e => .error e
  | .ok p => .ok (touchedPath p)

/-! ### Scenario constructors used by the claims -/

/-- A task (or child-flow) body that fails on every execution, with a message
depending on the flow attempt and the task attempt. -/
def alwaysFail (errf : Nat → Nat → String) : Body :=
  fun fa ta => .error (errf fa ta)

/-- A flow with retry budget `R` whose body invokes a single task with its own
retry budget `K` and returns that task's state. -/
def taskInRetryingFlow (R K : Nat) (body : Body) : FlowSpec :=
  ⟨R, [.callTask "t" K body], .retLast⟩

/-- The documented C3 scenario
(`test_flow_retry_with_error_in_flow_and_one_failed_task_with_retries`): the
task fails throughout the first flow attempt and on the first task attempt of
each later flow attempt. -/
def docScenarioBody : Body := fun fa ta =>
  if fa == 1 then .error "Fail on first flow run"
  else if ta == 1 then .error "Fail on first task run"
  else .ok "hello"

/-- The documented C3 flow: flow retries = 1, task retries = 1, and the flow
body itself raises on the first attempt after the task call. -/
def docScenarioSpec : FlowSpec :=
  ⟨1, [.callTask "my_task" 1 docScenarioBody,
       .raiseWhen (fun a => a == 1) (fun _ => "ValueError")], .retLast⟩

/-- A flow with one retry whose body invokes one always-succeeding task and
then raises on the first attempt only
(`test_flow_retry_with_error_in_flow_and_successful_task`). -/
def successfulTaskThenRaise (v : Nat → Nat → String) (msgf : Nat → String) :
    FlowSpec :=
  ⟨1, [.callTask "t" 0 (fun fa ta => .ok (v fa ta)),
       .raiseWhen (fun a => a == 1) msgf], .retLast⟩

/-- A flow body with one always-succeeding task and one task failing on every
flow attempt before the Nth (per `test_flow_retry_with_error_in_flow_and_-
successful_task` and `test_flow_retry_with_no_error_in_flow_and_one_failed_-
task`): the flow's Nth attempt is the first to succeed. -/
def resetAndReuseSteps (N : Nat) (v w errm : Nat → Nat → String) :
    List FStep :=
  [.callTask "ok" 0 (fun fa ta => .ok (v fa ta)),
   .callTask "fl" 0 (fun fa ta =>
     if fa < N then .error (errm fa ta) else .ok (w fa ta))]

/-- The flow around `resetAndReuseSteps`, with retry budget `R`, returning
the failing-then-succeeding task's state. -/
def resetAndReuseSpec (R N : Nat) (v w errm : Nat → Nat → String) :
    FlowSpec :=
  ⟨R, resetAndReuseSteps N v w errm, .retLast⟩

/-- A child task or subflow invocation, for the aggregate-state claims. -/
structure CallSpec where
  isSub : Bool
  name : String
  retries : Nat
  body : Body

/-- The flow-body step of a call. -/
def callStep (c : CallSpec) : FStep :=
  if c.isSub then .callSub c.name c.retries c.body
  else .callTask c.name c.retries c.body

/-- A flow body made of child calls only. -/
def callSteps (l : List CallSpec) : List FStep :=
  l.map callStep

/-- The outcome state of a call executed afresh at flow attempt `fa`. -/
def callOutcome (fa : Nat) (c : CallSpec) : TState :=
  (runTaskGo c.body fa 1 c.retries).1

/-- Erase the `state_details` side channel of a state, leaving its observable
outcome. -/
def stripDetails (s : TState) : TState :=
  ⟨s.type, s.message, s.data, Option.none⟩

/-- The child states held by a flow state's data, when it holds any. -/
def fdataStates : FData → Option (List TState)
  | .states l => some l
  | _ => Option.none

/-- The child calls of
`test_flow_state_reflects_returned_multiple_task_run_states`: two failing
tasks and one succeeding call (here a subflow, to cover both kinds). -/
def c4calls : List CallSpec :=
  [⟨false, "fail1", 0, fun _ _ => .error "Test 1"⟩,
   ⟨false, "fail2", 0, fun _ _ => .error "Test 2"⟩,
   ⟨true, "succeed", 0, fun _ _ => .ok "true"⟩]

/-- A flow with one retry whose body invokes one subflow that fails on the
first parent attempt and succeeds on the second
(`test_flow_retry_with_error_in_flow_and_one_failed_child_flow`). -/
def subflowRetrySpec : FlowSpec :=
  ⟨1, [.callSub "child_flow" 0
    (fun fa _ => if fa == 1 then .error "ValueError" else .ok "hello")],
   .retLast⟩

/-- The subflow/parent link invariant of §4.4, over the append-only run
records: every child flow run is pointed at by a synthetic task-run entry
whose id it points back to, and every synthetic task-run entry points at a
child flow run that points back to it. -/
def linkInv (st : EngSt) : Prop :=
  (∀ c ∈ st.childRuns, ∃ p ∈ st.slots,
    p.2.taskRunId = c.parentTaskRunId ∧
    p.2.state.childFlowRunId = some c.id) ∧
  (∀ p ∈ st.slots, ∀ cid, p.2.state.childFlowRunId = some cid →
    ∃ c ∈ st.childRuns, c.id = cid ∧ c.parentTaskRunId = p.2.taskRunId)

/-! ## Theorems -/

/-- The retry loop on a body that raises on every attempt: each attempt
fails, all retries are consumed, and the final state carries the last
attempt's error. -/
theorem flowLoop_always_raises (spec : FlowSpec) (errf : Nat → String)
    (H : ∀ fa st, (runSteps spec.steps fa 0 st).2.2 = some (errf fa)) :
    ∀ r fa st,
      (flowLoop spec fa st r).final = ⟨.FAILED, "", .exn (errf (fa + r))⟩ ∧
      (flowLoop spec fa st r).bodyRuns = r + 1 := by
  intro r
  induction r with
  | zero =>
    intro fa st
    rcases hrs : runSteps spec.steps fa 0 st with ⟨st', collected, raised⟩
    have hr : raised = some (errf fa) := by
      have := H fa st; rw [hrs] at this; exact this
    subst hr
    simp [flowLoop, hrs, attemptState]
  | succ r ih =>
    intro fa st
    rcases hrs : runSteps spec.steps fa 0 st with ⟨st', collected, raised⟩
    have hr : raised = some (errf fa) := by
      have := H fa st; rw [hrs] at this; exact this
    subst hr
    have h1 := ih (fa + 1) st'
    rw [show fa + 1 + r = fa + (r + 1) by omega] at h1
    simp [flowLoop, hrs, attemptState, h1.1, h1.2]

/-- C1: a flow with `retries = R` whose body raises on every attempt runs the
body exactly `R + 1` times and ends FAILED, carrying the last attempt's error
as its data. -/
theorem flow_retries_exhausted_failed (R : Nat) (spec : FlowSpec)
    (errf : Nat → String) (hR : spec.retries = R)
    (H : ∀ fa st, (runSteps spec.steps fa 0 st).2.2 = some (errf fa)) :
    (runFlow spec).bodyRuns = R + 1 ∧
    (runFlow spec).final = ⟨.FAILED, "", .exn (errf (R + 1))⟩ := by
  have h := flowLoop_always_raises spec errf H R 1 EngSt.empty
  rw [show 1 + R = R + 1 by omega] at h
  unfold runFlow
  rw [hR]
  exact ⟨h.2, h.1⟩

/-- Witness for C1: two retries, a body raising on every attempt with an
attempt-numbered message; three body runs and the third attempt's error. -/
theorem flow_retries_exhausted_failed_witness :
    (runFlow ⟨2, [.raiseWhen (fun _ => true) (fun a => toString a)],
      .retNone⟩).bodyRuns = 2 + 1 ∧
    (runFlow ⟨2, [.raiseWhen (fun _ => true) (fun a => toString a)],
      .retNone⟩).final = ⟨.FAILED, "", .exn (toString (2 + 1))⟩ :=
  flow_retries_exhausted_failed 2
    ⟨2, [.raiseWhen (fun _ => true) (fun a => toString a)], .retNone⟩
    (fun a => toString a) rfl (fun _ _ => rfl)

/-- C2 counterexample: a flow with one retry whose body invokes one
always-succeeding task and raises only on the first attempt performs two body
runs, but the task body executes once — not once per attempt — because the
replayed attempt reuses the task's cached COMPLETED state
(`test_flow_retry_with_error_in_flow_and_successful_task` asserts
`task_run_count == 1`). -/
theorem flow_retry_task_runs_once_counterexample :
    (runFlow (successfulTaskThenRaise (fun _ _ => "hello")
      (fun _ => "ValueError"))).bodyRuns = 2 ∧
    execCount (runFlow (successfulTaskThenRaise (fun _ _ => "hello")
      (fun _ => "ValueError"))) "t" = 1 ∧
    execCount (runFlow (successfulTaskThenRaise (fun _ _ => "hello")
      (fun _ => "ValueError"))) "t" ≠ 2 := by
  have h1 : execCount (runFlow (successfulTaskThenRaise (fun _ _ => "hello")
      (fun _ => "ValueError"))) "t" = 1 := rfl
  exact ⟨rfl, h1, by omega⟩

/-- Looking a dynamic key up in a slot history with a new head entry. -/
theorem lookupSlot_cons (j : Nat) (x : Slot) (slots : List (Nat × Slot))
    (k : Nat) :
    lookupSlot ((j, x) :: slots) k =
      if j == k then some x else lookupSlot slots k := by
  by_cases hk : (j == k) = true <;> simp [lookupSlot, List.find?, hk]

/-- One body attempt of the reuse-and-reset flow on an attempt before the
Nth, from a store whose "ok" slot is COMPLETED and whose "fl" slot is not:
the "ok" task is reused without executing, the "fl" task is reset and
re-executed, fails, and leaves its slot non-COMPLETED again. -/
theorem runSteps_flaky_fail (N : Nat) (v w errm : Nat → Nat → String)
    (fa : Nat) (st : EngSt) (sl0 : Slot)
    (h0 : lookupSlot st.slots 0 = some sl0)
    (hr0 : (sl0.state.type == StateType.COMPLETED) = true)
    (h1 : slotReusable (lookupSlot st.slots 1) = false)
    (hfa : fa < N) :
    ∃ st1 : EngSt,
      runSteps (resetAndReuseSteps N v w errm) fa 0 st =
        (st1, [sl0.state, ⟨.FAILED, "", .exn (errm fa 1), Option.none⟩],
          Option.none) ∧
      st1.events = st.events ++ ["fl"] ∧
      lookupSlot st1.slots 0 = some sl0 ∧
      slotReusable (lookupSlot st1.slots 1) = false := by
  rcases hc1 : lookupSlot st.slots 1 with _ | sl1
  · refine ⟨{ nextId := st.nextId + 1,
              slots := (1, ⟨st.nextId,
                ⟨.FAILED, "", .exn (errm fa 1), Option.none⟩⟩) :: st.slots,
              childRuns := st.childRuns,
              events := st.events ++ ["fl"] }, ?_, rfl, ?_, ?_⟩
    · simp [runSteps, resetAndReuseSteps, h0, hr0, hc1, slotReusable,
        runTaskGo, hfa]
    · rw [lookupSlot_cons]
      simpa using h0
    · rw [lookupSlot_cons]
      simp [slotReusable]
  · rw [hc1] at h1
    simp only [slotReusable] at h1
    refine ⟨{ nextId := st.nextId,
              slots := (1, ⟨sl1.taskRunId,
                ⟨.FAILED, "", .exn (errm fa 1), Option.none⟩⟩) :: st.slots,
              childRuns := st.childRuns,
              events := st.events ++ ["fl"] }, ?_, rfl, ?_, ?_⟩
    · simp [runSteps, resetAndReuseSteps, h0, hr0, hc1, slotReusable, h1,
        runTaskGo, hfa]
    · rw [lookupSlot_cons]
      simpa using h0
    · rw [lookupSlot_cons]
      simp [slotReusable]

/-- One body attempt of the reuse-and-reset flow on the Nth attempt, from a
store whose "ok" slot is COMPLETED and whose "fl" slot is not: the "ok" task
is reused without executing and the reset "fl" task succeeds. -/
theorem runSteps_flaky_succeed (N : Nat) (v w errm : Nat → Nat → String)
    (fa : Nat) (st : EngSt) (sl0 : Slot)
    (h0 : lookupSlot st.slots 0 = some sl0)
    (hr0 : (sl0.state.type == StateType.COMPLETED) = true)
    (h1 : slotReusable (lookupSlot st.slots 1) = false)
    (hfa : ¬ fa < N) :
    ∃ st1 : EngSt,
      runSteps (resetAndReuseSteps N v w errm) fa 0 st =
        (st1, [sl0.state, ⟨.COMPLETED, "", .value (w fa 1), Option.none⟩],
          Option.none) ∧
      st1.events = st.events ++ ["fl"] := by
  rcases hc1 : lookupSlot st.slots 1 with _ | sl1
  · refine ⟨{ nextId := st.nextId + 1,
              slots := (1, ⟨st.nextId,
                ⟨.COMPLETED, "", .value (w fa 1), Option.none⟩⟩) :: st.slots,
              childRuns := st.childRuns,
              events := st.events ++ ["fl"] }, ?_, rfl⟩
    simp [runSteps, resetAndReuseSteps, h0, hr0, hc1, slotReusable,
      runTaskGo, hfa]
  · rw [hc1] at h1
    simp only [slotReusable] at h1
    refine ⟨{ nextId := st.nextId,
              slots := (1, ⟨sl1.taskRunId,
                ⟨.COMPLETED, "", .value (w fa 1), Option.none⟩⟩) :: st.slots,
              childRuns := st.childRuns,
              events := st.events ++ ["fl"] }, ?_, rfl⟩
    simp [runSteps, resetAndReuseSteps, h0, hr0, hc1, slotReusable, h1,
      runTaskGo, hfa]

/-- The retry loop of the reuse-and-reset flow from any attempt `fa ≥ 2` with
enough retries left to reach the Nth attempt: one body run per remaining
attempt, the COMPLETED "ok" slot never re-executes, the non-COMPLETED "fl"
slot re-executes on every attempt, and the flow completes with the Nth
attempt's value. -/
theorem flowLoop_flaky (R N : Nat) (v w errm : Nat → Nat → String) :
    ∀ r fa st sl0,
      2 ≤ fa → fa ≤ N → N ≤ fa + r →
      lookupSlot st.slots 0 = some sl0 →
      (sl0.state.type == StateType.COMPLETED) = true →
      slotReusable (lookupSlot st.slots 1) = false →
      (flowLoop (resetAndReuseSpec R N v w errm) fa st r).bodyRuns =
        N - fa + 1 ∧
      ((flowLoop (resetAndReuseSpec R N v w errm) fa st r).st.events.count
        "ok") = st.events.count "ok" ∧
      ((flowLoop (resetAndReuseSpec R N v w errm) fa st r).st.events.count
        "fl") = st.events.count "fl" + (N - fa + 1) ∧
      (flowLoop (resetAndReuseSpec R N v w errm) fa st r).final =
        ⟨.COMPLETED, "", .value (w N 1)⟩ := by
  intro r
  induction r with
  | zero =>
    intro fa st sl0 hge hle hNr h0 hr0 h1
    have hfaN : fa = N := by omega
    obtain ⟨st1, hrs, hev⟩ :=
      runSteps_flaky_succeed N v w errm fa st sl0 h0 hr0 h1 (by omega)
    have hloop : flowLoop (resetAndReuseSpec R N v w errm) fa st 0 =
        ⟨⟨.COMPLETED, "", .value (w fa 1)⟩, st1, 1⟩ := by
      simp [flowLoop, resetAndReuseSpec, hrs, attemptState, liftTState]
    rw [hloop]
    have hok : List.count "ok" (["fl"] : List String) = 0 := by decide
    have hfl : List.count "fl" (["fl"] : List String) = 1 := by decide
    refine ⟨?_, ?_, ?_, ?_⟩
    · show (1 : Nat) = N - fa + 1
      omega
    · show List.count "ok" st1.events = List.count "ok" st.events
      rw [hev, List.count_append, hok]
      omega
    · show List.count "fl" st1.events =
        List.count "fl" st.events + (N - fa + 1)
      rw [hev, List.count_append, hfl]
      omega
    · show (⟨.COMPLETED, "", .value (w fa 1)⟩ : FState) = _
      rw [hfaN]
  | succ r ih =>
    intro fa st sl0 hge hle hNr h0 hr0 h1
    by_cases hfa : fa < N
    · obtain ⟨st1, hrs, hev, h0c, h1c⟩ :=
        runSteps_flaky_fail N v w errm fa st sl0 h0 hr0 h1 hfa
      have hstep : flowLoop (resetAndReuseSpec R N v w errm) fa st (r + 1) =
          ⟨(flowLoop (resetAndReuseSpec R N v w errm) (fa + 1) st1 r).final,
           (flowLoop (resetAndReuseSpec R N v w errm) (fa + 1) st1 r).st,
           (flowLoop (resetAndReuseSpec R N v w errm) (fa + 1) st1
             r).bodyRuns + 1⟩ := by
        simp [flowLoop, resetAndReuseSpec, hrs, attemptState, liftTState]
      obtain ⟨ih1, ih2, ih3, ih4⟩ := ih (fa + 1) st1 sl0 (by omega) (by omega)
        (by omega) h0c hr0 h1c
      rw [hstep]
      have hok : List.count "ok" (["fl"] : List String) = 0 := by decide
      have hfl : List.count "fl" (["fl"] : List String) = 1 := by decide
      refine ⟨?_, ?_, ?_, ?_⟩
      · show (flowLoop (resetAndReuseSpec R N v w errm) (fa + 1) st1
            r).bodyRuns + 1 = N - fa + 1
        rw [ih1]
        omega
      · show List.count "ok" (flowLoop (resetAndReuseSpec R N v w errm)
            (fa + 1) st1 r).st.events = List.count "ok" st.events
        rw [ih2, hev, List.count_append, hok]
        omega
      · show List.count "fl" (flowLoop (resetAndReuseSpec R N v w errm)
            (fa + 1) st1 r).st.events =
            List.count "fl" st.events + (N - fa + 1)
        rw [ih3, hev, List.count_append, hfl]
        omega
      · show (flowLoop (resetAndReuseSpec R N v w errm) (fa + 1) st1
            r).final = _
        exact ih4
    · have hfaN : fa = N := by omega
      obtain ⟨st1, hrs, hev⟩ :=
        runSteps_flaky_succeed N v w errm fa st sl0 h0 hr0 h1 hfa
      have hloop : flowLoop (resetAndReuseSpec R N v w errm) fa st (r + 1) =
          ⟨⟨.COMPLETED, "", .value (w fa 1)⟩, st1, 1⟩ := by
        simp [flowLoop, resetAndReuseSpec, hrs, attemptState, liftTState]
      rw [hloop]
      have hok : List.count "ok" (["fl"] : List String) = 0 := by decide
      have hfl : List.count "fl" (["fl"] : List String) = 1 := by decide
      refine ⟨?_, ?_, ?_, ?_⟩
      · show (1 : Nat) = N - fa + 1
        omega
      · show List.count "ok" st1.events = List.count "ok" st.events
        rw [hev, List.count_append, hok]
        omega
      · show List.count "fl" st1.events =
          List.count "fl" st.events + (N - fa + 1)
        rw [hev, List.count_append, hfl]
        omega
      · show (⟨.COMPLETED, "", .value (w fa 1)⟩ : FState) = _
        rw [hfaN]

/-- C2 (amended): for a flow with `retries = R` whose Nth attempt is the
first to succeed (1 ≤ N ≤ R+1), the flow body runs once per attempt — N
times — but descendants are not all replayed: a descendant that COMPLETED on
the first attempt is never re-executed (its cached state is reused on every
replay, so it runs exactly once in total), while a descendant whose state is
not COMPLETED is reset and re-executed on every attempt (N executions), and
the flow completes with the Nth attempt's value. -/
theorem flow_retry_reuses_completed_task (R N : Nat)
    (v w errm : Nat → Nat → String) (hN1 : 1 ≤ N) (hNR : N ≤ R + 1) :
    (runFlow (resetAndReuseSpec R N v w errm)).bodyRuns = N ∧
    execCount (runFlow (resetAndReuseSpec R N v w errm)) "ok" = 1 ∧
    execCount (runFlow (resetAndReuseSpec R N v w errm)) "fl" = N ∧
    (runFlow (resetAndReuseSpec R N v w errm)).final =
      ⟨.COMPLETED, "", .value (w N 1)⟩ := by
  by_cases hN : N = 1
  · subst hN
    have hrs : runSteps (resetAndReuseSteps 1 v w errm) 1 0 EngSt.empty =
        ({ nextId := 2,
           slots := [(1, ⟨1, ⟨.COMPLETED, "", .value (w 1 1), Option.none⟩⟩),
                     (0, ⟨0, ⟨.COMPLETED, "", .value (v 1 1), Option.none⟩⟩)],
           childRuns := [],
           events := ["ok", "fl"] },
         [⟨.COMPLETED, "", .value (v 1 1), Option.none⟩,
          ⟨.COMPLETED, "", .value (w 1 1), Option.none⟩], Option.none) := by
      simp [runSteps, resetAndReuseSteps, lookupSlot, slotReusable,
        runTaskGo, EngSt.empty, List.find?]
    have hloop : ∀ r, flowLoop (resetAndReuseSpec R 1 v w errm) 1
        EngSt.empty r =
        ⟨⟨.COMPLETED, "", .value (w 1 1)⟩,
         { nextId := 2,
           slots := [(1, ⟨1, ⟨.COMPLETED, "", .value (w 1 1), Option.none⟩⟩),
                     (0, ⟨0, ⟨.COMPLETED, "", .value (v 1 1), Option.none⟩⟩)],
           childRuns := [],
           events := ["ok", "fl"] }, 1⟩ := by
      intro r
      cases r <;>
        simp [flowLoop, resetAndReuseSpec, hrs, attemptState, liftTState]
    have hrun : runFlow (resetAndReuseSpec R 1 v w errm) =
        flowLoop (resetAndReuseSpec R 1 v w errm) 1 EngSt.empty R := rfl
    rw [hrun, hloop R]
    refine ⟨rfl, ?_, ?_, rfl⟩
    · show List.count "ok" (["ok", "fl"] : List String) = 1
      decide
    · show List.count "fl" (["ok", "fl"] : List String) = 1
      decide
  · have hN2 : 2 ≤ N := by omega
    have hrs : runSteps (resetAndReuseSteps N v w errm) 1 0 EngSt.empty =
        ({ nextId := 2,
           slots := [(1, ⟨1, ⟨.FAILED, "", .exn (errm 1 1), Option.none⟩⟩),
                     (0, ⟨0, ⟨.COMPLETED, "", .value (v 1 1), Option.none⟩⟩)],
           childRuns := [],
           events := ["ok", "fl"] },
         [⟨.COMPLETED, "", .value (v 1 1), Option.none⟩,
          ⟨.FAILED, "", .exn (errm 1 1), Option.none⟩], Option.none) := by
      simp [runSteps, resetAndReuseSteps, lookupSlot, slotReusable,
        runTaskGo, EngSt.empty, List.find?, (by omega : (1:Nat) < N)]
    set stI : EngSt :=
      { nextId := 2,
        slots := [(1, ⟨1, ⟨.FAILED, "", .exn (errm 1 1), Option.none⟩⟩),
                  (0, ⟨0, ⟨.COMPLETED, "", .value (v 1 1), Option.none⟩⟩)],
        childRuns := [],
        events := ["ok", "fl"] } with hstI
    obtain ⟨r2, hr2⟩ : ∃ r2, R = r2 + 1 := ⟨R - 1, by omega⟩
    subst hr2
    have hstep : flowLoop (resetAndReuseSpec (r2 + 1) N v w errm) 1
        EngSt.empty (r2 + 1) =
        ⟨(flowLoop (resetAndReuseSpec (r2 + 1) N v w errm) 2 stI r2).final,
         (flowLoop (resetAndReuseSpec (r2 + 1) N v w errm) 2 stI r2).st,
         (flowLoop (resetAndReuseSpec (r2 + 1) N v w errm) 2 stI
           r2).bodyRuns + 1⟩ := by
      simp [flowLoop, resetAndReuseSpec, hrs, attemptState, liftTState]
    obtain ⟨ih1, ih2, ih3, ih4⟩ := flowLoop_flaky (r2 + 1) N v w errm r2 2
      stI ⟨0, ⟨.COMPLETED, "", .value (v 1 1), Option.none⟩⟩
      (by omega) hN2 (by omega) (by rw [hstI]; rfl) rfl (by rw [hstI]; rfl)
    have hrun : runFlow (resetAndReuseSpec (r2 + 1) N v w errm) =
        flowLoop (resetAndReuseSpec (r2 + 1) N v w errm) 1 EngSt.empty
          (r2 + 1) := rfl
    rw [hrun, hstep]
    refine ⟨?_, ?_, ?_, ?_⟩
    · show (flowLoop (resetAndReuseSpec (r2 + 1) N v w errm) 2 stI
          r2).bodyRuns + 1 = N
      rw [ih1]
      omega
    · show List.count "ok" (flowLoop (resetAndReuseSpec (r2 + 1) N v w errm)
          2 stI r2).st.events = 1
      rw [ih2]
      show List.count "ok" (["ok", "fl"] : List String) = 1
      decide
    · show List.count "fl" (flowLoop (resetAndReuseSpec (r2 + 1) N v w errm)
          2 stI r2).st.events = N
      rw [ih3]
      have hc : List.count "fl" stI.events = 1 := by
        show List.count "fl" (["ok", "fl"] : List String) = 1
        decide
      omega
    · show (flowLoop (resetAndReuseSpec (r2 + 1) N v w errm) 2 stI
          r2).final = _
      exact ih4

/-- Witness for C2's amended theorem: the tests' instance — one retry, the
second attempt the first to succeed — gives two body runs, one execution of
the succeeding task, two of the failing one, and completion with the second
attempt's value. -/
theorem flow_retry_reuses_completed_task_witness :
    (runFlow (resetAndReuseSpec 1 2 (fun _ _ => "hello")
      (fun _ _ => "hello") (fun _ _ => "ValueError"))).bodyRuns = 2 ∧
    execCount (runFlow (resetAndReuseSpec 1 2 (fun _ _ => "hello")
      (fun _ _ => "hello") (fun _ _ => "ValueError"))) "ok" = 1 ∧
    execCount (runFlow (resetAndReuseSpec 1 2 (fun _ _ => "hello")
      (fun _ _ => "hello") (fun _ _ => "ValueError"))) "fl" = 2 ∧
    (runFlow (resetAndReuseSpec 1 2 (fun _ _ => "hello")
      (fun _ _ => "hello") (fun _ _ => "ValueError"))).final =
      ⟨.COMPLETED, "", .value "hello"⟩ :=
  flow_retry_reuses_completed_task 1 2 (fun _ _ => "hello")
    (fun _ _ => "hello") (fun _ _ => "ValueError") (by decide) (by decide)

/-- Running a task with an always-failing body consumes the whole retry
budget: `K + 1` executions, ending FAILED with the last attempt's error and
no child-flow link. -/
theorem runTaskGo_alwaysFail (errf : Nat → Nat → String) :
    ∀ K fa a, runTaskGo (alwaysFail errf) fa a K =
      (⟨.FAILED, "", .exn (errf fa (a + K)), Option.none⟩, K + 1) := by
  intro K
  induction K with
  | zero => intro fa a; simp [runTaskGo, alwaysFail]
  | succ K ih =>
    intro fa a
    simp only [runTaskGo, alwaysFail]
    rw [ih fa (a + 1)]
    rw [show a + 1 + K = a + (K + 1) by omega]

/-- One body attempt of the single-task flow when the task's slot is empty:
the task runs afresh, fails, and is recorded under dynamic key 0. -/
theorem runSteps_taskOnly_none (K : Nat) (errf : Nat → Nat → String)
    (fa : Nat) (st : EngSt) (hc : lookupSlot st.slots 0 = Option.none) :
    runSteps [FStep.callTask "t" K (alwaysFail errf)] fa 0 st =
      ({ nextId := st.nextId + 1,
         slots := (0, ⟨st.nextId,
           ⟨.FAILED, "", .exn (errf fa (1 + K)), Option.none⟩⟩) :: st.slots,
         childRuns := st.childRuns,
         events := st.events ++ List.replicate (K + 1) "t" },
       [⟨.FAILED, "", .exn (errf fa (1 + K)), Option.none⟩], Option.none) := by
  simp [runSteps, hc, slotReusable, runTaskGo_alwaysFail]

/-- One body attempt of the single-task flow when the task's slot holds a
non-COMPLETED state: the slot is reset and the task runs afresh. -/
theorem runSteps_taskOnly_some (K : Nat) (errf : Nat → Nat → String)
    (fa : Nat) (st : EngSt) (sl : Slot)
    (hc : lookupSlot st.slots 0 = some sl)
    (hre : (sl.state.type == StateType.COMPLETED) = false) :
    runSteps [FStep.callTask "t" K (alwaysFail errf)] fa 0 st =
      ({ nextId := st.nextId,
         slots := (0, ⟨sl.taskRunId,
           ⟨.FAILED, "", .exn (errf fa (1 + K)), Option.none⟩⟩) :: st.slots,
         childRuns := st.childRuns,
         events := st.events ++ List.replicate (K + 1) "t" },
       [⟨.FAILED, "", .exn (errf fa (1 + K)), Option.none⟩], Option.none) := by
  simp [runSteps, hc, slotReusable, hre, runTaskGo_alwaysFail]

/-- The retry loop on a single-task flow whose task always fails: each flow
attempt re-runs the task afresh (its slot is never COMPLETED) and consumes
the task's whole retry budget again. -/
theorem flowLoop_taskAlwaysFail (R K : Nat) (errf : Nat → Nat → String) :
    ∀ r fa st, slotReusable (lookupSlot st.slots 0) = false →
      (flowLoop (taskInRetryingFlow R K (alwaysFail errf)) fa st r).bodyRuns =
        r + 1 ∧
      ((flowLoop (taskInRetryingFlow R K (alwaysFail errf)) fa st
          r).st.events.count "t") =
        st.events.count "t" + (r + 1) * (K + 1) ∧
      (flowLoop (taskInRetryingFlow R K (alwaysFail errf)) fa st
          r).final.type = .FAILED := by
  have key : ∀ fa st, slotReusable (lookupSlot st.slots 0) = false →
      ∃ st1 : EngSt,
        runSteps [FStep.callTask "t" K (alwaysFail errf)] fa 0 st =
          (st1, [⟨.FAILED, "", .exn (errf fa (1 + K)), Option.none⟩],
            Option.none) ∧
        st1.events = st.events ++ List.replicate (K + 1) "t" ∧
        slotReusable (lookupSlot st1.slots 0) = false := by
    intro fa st hre
    rcases hc : lookupSlot st.slots 0 with _ | sl
    · refine ⟨_, runSteps_taskOnly_none K errf fa st hc, rfl, ?_⟩
      simp [lookupSlot, slotReusable]
    · rw [hc] at hre
      unfold slotReusable at hre
      refine ⟨_, runSteps_taskOnly_some K errf fa st sl hc hre, rfl, ?_⟩
      simp [lookupSlot, slotReusable]
  intro r
  induction r with
  | zero =>
    intro fa st hre
    obtain ⟨st1, hrs, hev, _⟩ := key fa st hre
    refine ⟨?_, ?_, ?_⟩ <;>
      simp [flowLoop, taskInRetryingFlow, hrs, attemptState, liftTState, hev,
        List.count_append, List.count_replicate]
  | succ r ih =>
    intro fa st hre
    obtain ⟨st1, hrs, hev, hre1⟩ := key fa st hre
    obtain ⟨ih1, ih2, ih3⟩ := ih (fa + 1) st1 hre1
    have hred : flowLoop (taskInRetryingFlow R K (alwaysFail errf)) fa st
        (r + 1) =
        ⟨(flowLoop (taskInRetryingFlow R K (alwaysFail errf)) (fa + 1) st1
            r).final,
         (flowLoop (taskInRetryingFlow R K (alwaysFail errf)) (fa + 1) st1
            r).st,
         (flowLoop (taskInRetryingFlow R K (alwaysFail errf)) (fa + 1) st1
            r).bodyRuns + 1⟩ := by
      simp [flowLoop, taskInRetryingFlow, hrs, attemptState, liftTState]
    rw [hred]
    refine ⟨by simp [ih1], ?_, by simp [ih3]⟩
    show (flowLoop (taskInRetryingFlow R K (alwaysFail errf)) (fa + 1) st1
        r).st.events.count "t" = st.events.count "t" + (r + 1 + 1) * (K + 1)
    rw [ih2, hev, List.count_append, List.count_replicate]
    simp [Nat.succ_mul]
    ring

/-- C3: a task with its own retry budget `K`, invoked from a flow with retry
budget `R` and failing on every execution, exhausts its `K` retries
independently on every flow attempt — `(R+1)*(K+1)` task executions in total,
with the flow ending FAILED — and in the documented scenario (flow retries=1,
task retries=1, task failing throughout attempt 1 and on its first run of
attempt 2) the task body executes 4 times and the flow ends COMPLETED. -/
theorem task_retries_exhausted_per_attempt (R K : Nat)
    (errf : Nat → Nat → String) :
    ((runFlow (taskInRetryingFlow R K (alwaysFail errf))).bodyRuns = R + 1 ∧
     execCount (runFlow (taskInRetryingFlow R K (alwaysFail errf))) "t" =
       (R + 1) * (K + 1) ∧
     (runFlow (taskInRetryingFlow R K (alwaysFail errf))).final.type =
       .FAILED) ∧
    ((runFlow docScenarioSpec).bodyRuns = 2 ∧
     execCount (runFlow docScenarioSpec) "my_task" = 4 ∧
     (runFlow docScenarioSpec).final = ⟨.COMPLETED, "", .value "hello"⟩) := by
  constructor
  · have h := flowLoop_taskAlwaysFail R K errf R 1 EngSt.empty
      (by simp [EngSt.empty, lookupSlot, slotReusable])
    unfold runFlow execCount
    simp only [taskInRetryingFlow] at h ⊢
    exact ⟨h.1, by rw [h.2.1]; simp [EngSt.empty], h.2.2⟩
  · exact ⟨rfl, rfl, rfl⟩

/-- C6: a flow with a wall-clock budget `T` whose blocking body starts with a
call blocking for `d ≥ T` time units — whether or not anything follows —
yields TIMED_OUT handed to the caller at the deadline itself, before the
body's total duration elapses, and no side effect or task invocation placed
after the blocking call ever executes. -/
theorem flow_timeout_aborts_blocking_body (T d : Nat) (post : List BInstr)
    (hTd : T ≤ d) :
    runTimed T (BInstr.block d :: post) =
      ⟨StateType.TIMED_OUT, T, [], []⟩ ∧
    T ≤ totalDuration (BInstr.block d :: post) := by
  constructor
  · unfold runTimed runTimedGo
    by_cases hT0 : T ≤ 0
    · rw [if_pos hT0]
    · rw [if_neg hT0]
      show runTimedGo T (0 + d) [] [] post = _
      cases post with
      | nil =>
        unfold runTimedGo
        rw [if_pos (by omega)]
      | cons i rest =>
        unfold runTimedGo
        rw [if_pos (by omega)]
  · have : totalDuration (BInstr.block d :: post) = d + totalDuration post := by
      simp [totalDuration]
    omega

/-- Witness for C6: the tests' scenarios (timeout 0.1s, sleep 1s) in tenths
of a second — once with nothing after the sleep
(`test_flows_fail_with_timeout`) and once with a canary side effect after it
(`test_timeout_does_not_wait_for_completion_for_sync_flows`). -/
theorem flow_timeout_aborts_blocking_body_witness :
    (runTimed 1 [BInstr.block 10] = ⟨StateType.TIMED_OUT, 1, [], []⟩ ∧
     1 ≤ totalDuration [BInstr.block 10]) ∧
    (runTimed 1 [BInstr.block 10, BInstr.effect "canary"] =
      ⟨StateType.TIMED_OUT, 1, [], []⟩ ∧
     1 ≤ totalDuration [BInstr.block 10, BInstr.effect "canary"]) :=
  ⟨flow_timeout_aborts_blocking_body 1 10 [] (by decide),
   flow_timeout_aborts_blocking_body 1 10 [BInstr.effect "canary"]
     (by decide)⟩

/-- C7: with validation enabled, parameters failing validation yield a FAILED
state carrying the parameter-type error, the body never executes and no retry
happens regardless of the retry budget; with validation disabled the raw
values pass through to the body unchecked. -/
theorem param_validation_gates_body (R : Nat)
    (params : List (PType × PValue))
    (body : List PValue → Except String String) (e : String)
    (h : validateParams params = .error e) :
    runPFlow ⟨R, true, params, body⟩ =
      (⟨.FAILED, "Flow run received invalid parameters.",
        .exn ("ParameterTypeError: " ++ e)⟩, 0) ∧
    ∀ f : PFlow, f.validate = false →
      runPFlow f = bodyLoop f.body (f.params.map Prod.snd) f.retries := by
  constructor
  · simp [runPFlow, h]
  · intro f hf
    simp [runPFlow, hf]

/-- Witness for C7: the test's flow `foo(x: int)` called with `x="foo"` and
two retries configured. -/
theorem param_validation_gates_body_witness :
    runPFlow ⟨2, true, [(.tInt, .pStr "foo")], fun _ => .ok "x"⟩ =
      (⟨.FAILED, "Flow run received invalid parameters.",
        .exn ("ParameterTypeError: " ++ "value is not a valid integer")⟩, 0) ∧
    ∀ f : PFlow, f.validate = false →
      runPFlow f = bodyLoop f.body (f.params.map Prod.snd) f.retries :=
  param_validation_gates_body 2 [(.tInt, .pStr "foo")] (fun _ => .ok "x")
    "value is not a valid integer" (by rfl)

/-- C8: the log worker's lifecycle — starting from CREATED starts exactly one
drainer and a repeated start is a no-op; stop is idempotent; once STOPPED,
both start and enqueue raise explicit errors. -/
theorem log_worker_lifecycle :
    (LogWorker.new.start = .ok ⟨.started, 1, [], []⟩ ∧
     LogWorker.start ⟨.started, 1, [], []⟩ = .ok ⟨.started, 1, [], []⟩) ∧
    (∀ w : LogWorker, w.stop.stop = w.stop) ∧
    (∀ w : LogWorker, ∀ r : String, w.status = .stopped →
      w.start = .error "The log worker cannot be started after stopping." ∧
      w.enqueue r =
        .error "Logs cannot be enqueued after the log worker is stopped.") := by
  refine ⟨⟨rfl, rfl⟩, ?_, ?_⟩
  · intro w
    rcases w with ⟨st, dr, q, p⟩
    cases st <;> rfl
  · intro w r h
    rcases w with ⟨st, dr, q, p⟩
    cases h
    exact ⟨rfl, rfl⟩

/-- Witness for C8: a concrete started worker stopped twice, and a stopped
worker rejecting start and enqueue. -/
theorem log_worker_lifecycle_witness :
    LogWorker.stop (LogWorker.stop ⟨.started, 1, ["a"], []⟩) =
      LogWorker.stop ⟨.started, 1, ["a"], []⟩ ∧
    LogWorker.start ⟨.stopped, 1, [], []⟩ =
      .error "The log worker cannot be started after stopping." ∧
    LogWorker.enqueue ⟨.stopped, 1, [], []⟩ "x" =
      .error "Logs cannot be enqueued after the log worker is stopped." :=
  ⟨log_worker_lifecycle.2.1 ⟨.started, 1, ["a"], []⟩,
   (log_worker_lifecycle.2.2 ⟨.stopped, 1, [], []⟩ "x" rfl).1,
   (log_worker_lifecycle.2.2 ⟨.stopped, 1, [], []⟩ "x" rfl).2⟩

/-- C9: when a drain cycle's transmission fails, the drained records are kept
pending (removed from the queue, not requeued), nothing is shipped, a
diagnostic carrying the error and whether the worker will retry is reported,
and the next successful drain cycle ships exactly those records once, in
order. -/
theorem log_send_failure_pending_retry (w : LogWorker) (exiting : Bool)
    (e : String) (h : w.pending ++ w.queue ≠ []) :
    (w.sendLogs exiting (fun _ => .error e)).1.pending =
      w.pending ++ w.queue ∧
    (w.sendLogs exiting (fun _ => .error e)).1.queue = [] ∧
    (w.sendLogs exiting (fun _ => .error e)).2.1 = [] ∧
    (w.sendLogs exiting (fun _ => .error e)).2.2 = [⟨e, !exiting⟩] ∧
    ((w.sendLogs exiting (fun _ => .error e)).1.sendLogs false
        (fun _ => .ok ())).2.1 = w.pending ++ w.queue ∧
    ((w.sendLogs exiting (fun _ => .error e)).1.sendLogs false
        (fun _ => .ok ())).1.pending = [] := by
  have hne : (w.pending ++ w.queue).isEmpty = false := by
    cases hl : w.pending ++ w.queue with
    | nil => exact absurd hl h
    | cons a l => rfl
  simp [LogWorker.sendLogs, hne]

/-- Witness for C9: a started worker with one pending and two queued records,
a failing transmission, then a succeeding one. -/
theorem log_send_failure_pending_retry_witness :
    ((⟨.started, 1, ["a", "b"], ["p"]⟩ : LogWorker).sendLogs false
        (fun _ => .error "Test")).1.pending = ["p"] ++ ["a", "b"] ∧
    ((⟨.started, 1, ["a", "b"], ["p"]⟩ : LogWorker).sendLogs false
        (fun _ => .error "Test")).1.queue = [] ∧
    ((⟨.started, 1, ["a", "b"], ["p"]⟩ : LogWorker).sendLogs false
        (fun _ => .error "Test")).2.1 = [] ∧
    ((⟨.started, 1, ["a", "b"], ["p"]⟩ : LogWorker).sendLogs false
        (fun _ => .error "Test")).2.2 = [⟨"Test", !false⟩] ∧
    (((⟨.started, 1, ["a", "b"], ["p"]⟩ : LogWorker).sendLogs false
        (fun _ => .error "Test")).1.sendLogs false
        (fun _ => .ok ())).2.1 = ["p"] ++ ["a", "b"] ∧
    (((⟨.started, 1, ["a", "b"], ["p"]⟩ : LogWorker).sendLogs false
        (fun _ => .error "Test")).1.sendLogs false
        (fun _ => .ok ())).1.pending = [] :=
  log_send_failure_pending_retry ⟨.started, 1, ["a", "b"], ["p"]⟩ false "Test"
    (by decide)

/-- Normalization leaves no "." or ".." component, starting from any clean
accumulator. -/
theorem foldl_normStep_noDots (l : List String) :
    ∀ acc, (∀ c ∈ acc, c ≠ "." ∧ c ≠ "..") →
      ∀ c ∈ l.foldl normStep acc, c ≠ "." ∧ c ≠ ".." := by
  induction l with
  | nil => intro acc h; simpa using h
  | cons x xs ih =>
    intro acc h
    simp only [List.foldl_cons]
    apply ih
    intro c hc
    unfold normStep at hc
    by_cases h1 : x = "."
    · rw [if_pos h1] at hc; exact h c hc
    · rw [if_neg h1] at hc
      by_cases h2 : x = ".."
      · rw [if_pos h2] at hc
        exact h c ((List.dropLast_sublist acc).subset hc)
      · rw [if_neg h2] at hc
        rcases List.mem_append.mp hc with h3 | h3
        · exact h c h3
        · have hcx : c = x := by simpa using h3
          subst hcx
          exact ⟨h1, h2⟩

/-- A normalized component list has no "." or ".." component. -/
theorem normalizeParts_noDots (l : List String) :
    ∀ c ∈ normalizeParts l, c ≠ "." ∧ c ≠ ".." :=
  foldl_normStep_noDots l [] (by simp)

/-- Normalizing a clean component list appends it to the accumulator. -/
theorem foldl_normStep_clean (l : List String) :
    ∀ acc, (∀ c ∈ l, c ≠ "." ∧ c ≠ "..") →
      l.foldl normStep acc = acc ++ l := by
  induction l with
  | nil => simp
  | cons x xs ih =>
    intro acc h
    have hx := h x (by simp)
    simp only [List.foldl_cons]
    rw [show normStep acc x = acc ++ [x] by
      unfold normStep; rw [if_neg hx.1, if_neg hx.2]]
    rw [ih (acc ++ [x]) (fun c hc => h c (by simp [hc]))]
    simp

/-- Normalization is the identity on clean component lists. -/
theorem normalizeParts_of_clean (l : List String)
    (h : ∀ c ∈ l, c ≠ "." ∧ c ≠ "..") : normalizeParts l = l := by
  unfold normalizeParts
  rw [foldl_normStep_clean l [] h]
  simp

/-- Normalization is idempotent. -/
theorem normalizeParts_idem (l : List String) :
    normalizeParts (normalizeParts l) = normalizeParts l :=
  normalizeParts_of_clean _ (normalizeParts_noDots l)

/-- C10 counterexample: with basepath `/base`, the relative argument
`../escape` is accepted by `_resolve_path` and the file actually opened is
`/escape`, which does not lie under `/base` — the filesystem is touched
outside the basepath without any error. -/
theorem localfs_relative_traversal_escapes :
    LocalFileSystem.accessedPath ⟨true, []⟩ ⟨true, ["home"]⟩
        (some ⟨true, ["base"]⟩) ⟨false, ["..", "escape"]⟩ =
      .ok ⟨true, ["escape"]⟩ ∧
    isStrictlyUnder ["base"] ["escape"] = false ∧
    List.isPrefixOf ["base"] ["escape"] = false :=
  ⟨rfl, rfl, rfl⟩

/-- C10 (amended): an absolute argument resolving outside the basepath is
rejected; an accepted absolute argument is confined strictly under the
basepath; a relative argument is joined under the basepath and, when it
contains no "." or ".." component, the file actually accessed also lies under
the basepath — but a relative argument may escape via "..", per the
counterexample. -/
theorem localfs_confinement (cwd home bpArg path : PyPath) :
    ((expanduser home path).absolute = true →
      isStrictlyUnder (pyResolve cwd (expanduser home bpArg)).parts
          (normalizeParts (expanduser home path).parts) = false →
      LocalFileSystem.accessedPath cwd home (some bpArg) path =
        .error "Attempted to write to path outside of the base path.") ∧
    ((expanduser home path).absolute = true →
      ∀ p : PyPath,
        LocalFileSystem.accessedPath cwd home (some bpArg) path = .ok p →
        isStrictlyUnder (pyResolve cwd (expanduser home bpArg)).parts
          p.parts = true) ∧
    ((expanduser home path).absolute = false →
      (∀ c ∈ (expanduser home path).parts, c ≠ "." ∧ c ≠ "..") →
      LocalFileSystem.accessedPath cwd home (some bpArg) path =
        .ok ⟨true, (pyResolve cwd (expanduser home bpArg)).parts ++
          (expanduser home path).parts⟩) := by
  have hbp : (pyResolve cwd (expanduser home bpArg)).parts =
      normalizeParts (pyResolve cwd (expanduser home bpArg)).parts := by
    unfold pyResolve
    by_cases hb : (expanduser home bpArg).absolute <;>
      simp [hb, normalizeParts_idem]
  refine ⟨?_, ?_, ?_⟩
  · intro habs hout
    have hpp : (pyResolve cwd (expanduser home path)).parts =
        normalizeParts (expanduser home path).parts := by
      unfold pyResolve; rw [habs]; simp
    have hguard : isStrictlyUnder
        (pyResolve cwd (expanduser home bpArg)).parts
        (pyResolve cwd (expanduser home path)).parts = false := by
      rw [hpp]; exact hout
    simp only [LocalFileSystem.accessedPath, LocalFileSystem.resolvePath,
      Option.getD]
    rw [habs]
    simp [hguard]
  · intro habs p hp
    have hpp : (pyResolve cwd (expanduser home path)).parts =
        normalizeParts (expanduser home path).parts := by
      unfold pyResolve; rw [habs]; simp
    by_cases hg : isStrictlyUnder (pyResolve cwd (expanduser home bpArg)).parts
        (pyResolve cwd (expanduser home path)).parts = true
    · have hres : LocalFileSystem.accessedPath cwd home (some bpArg) path =
          .ok (touchedPath (pyResolve cwd (expanduser home path))) := by
        simp only [LocalFileSystem.accessedPath, LocalFileSystem.resolvePath,
          Option.getD]
        rw [habs]
        simp [hg]
      rw [hres] at hp
      simp only [Except.ok.injEq] at hp
      subst hp
      show isStrictlyUnder _
        (normalizeParts (pyResolve cwd (expanduser home path)).parts) = true
      rw [hpp, normalizeParts_idem, ← hpp]
      exact hg
    · have hres : LocalFileSystem.accessedPath cwd home (some bpArg) path =
          .error "Attempted to write to path outside of the base path." := by
        simp only [LocalFileSystem.accessedPath, LocalFileSystem.resolvePath,
          Option.getD]
        rw [habs]
        simp [hg]
      rw [hres] at hp
      cases hp
  · intro habs hclean
    have hjoin : normalizeParts
        ((pyResolve cwd (expanduser home bpArg)).parts ++
          (expanduser home path).parts) =
        (pyResolve cwd (expanduser home bpArg)).parts ++
          (expanduser home path).parts := by
      apply normalizeParts_of_clean
      intro c hc
      rcases List.mem_append.mp hc with h1 | h1
      · rw [hbp] at h1
        exact normalizeParts_noDots _ c h1
      · exact hclean c h1
    simp only [LocalFileSystem.accessedPath, LocalFileSystem.resolvePath,
      Option.getD]
    rw [habs]
    simp [touchedPath, hjoin]

/-- Witness for C10's amended theorem: basepath `/base`; the absolute
argument `/etc/passwd` is rejected, the absolute argument `/base/f` is
accepted and confined, and the clean relative argument `sub/f` lands under
the basepath. -/
theorem localfs_confinement_witness :
    LocalFileSystem.accessedPath ⟨true, []⟩ ⟨true, ["home"]⟩
        (some ⟨true, ["base"]⟩) ⟨true, ["etc", "passwd"]⟩ =
      .error "Attempted to write to path outside of the base path." ∧
    isStrictlyUnder
      (pyResolve ⟨true, []⟩ (expanduser ⟨true, ["home"]⟩ ⟨true, ["base"]⟩)).parts
      (⟨true, ["base", "f"]⟩ : PyPath).parts = true ∧
    LocalFileSystem.accessedPath ⟨true, []⟩ ⟨true, ["home"]⟩
        (some ⟨true, ["base"]⟩) ⟨false, ["sub", "f"]⟩ =
      .ok ⟨true,
        (pyResolve ⟨true, []⟩
          (expanduser ⟨true, ["home"]⟩ ⟨true, ["base"]⟩)).parts ++
        ["sub", "f"]⟩ := by
  refine ⟨?_, ?_, ?_⟩
  · exact (localfs_confinement ⟨true, []⟩ ⟨true, ["home"]⟩ ⟨true, ["base"]⟩
      ⟨true, ["etc", "passwd"]⟩).1 rfl (by decide)
  · exact (localfs_confinement ⟨true, []⟩ ⟨true, ["home"]⟩ ⟨true, ["base"]⟩
      ⟨true, ["base", "f"]⟩).2.1 rfl ⟨true, ["base", "f"]⟩ (by rfl)
  · exact (localfs_confinement ⟨true, []⟩ ⟨true, ["home"]⟩ ⟨true, ["base"]⟩
      ⟨false, ["sub", "f"]⟩).2.2 rfl (by decide)

/-- A task run's own states never carry a child-flow link. -/
theorem runTaskGo_no_child (body : Body) :
    ∀ K fa a, ((runTaskGo body fa a K).1).childFlowRunId = Option.none := by
  intro K
  induction K with
  | zero =>
    intro fa a
    cases hb : body fa a <;> simp [runTaskGo, hb]
  | succ K ih =>
    intro fa a
    cases hb : body fa a with
    | ok v => simp [runTaskGo, hb]
    | error e => simp [runTaskGo, hb, ih]

/-- Stripping details is the identity on a state without a child-flow link. -/
theorem stripDetails_eq_self (s : TState)
    (h : s.childFlowRunId = Option.none) : stripDetails s = s := by
  rcases s with ⟨t, m, d, c⟩
  cases h
  rfl

/-- Stripping details does not change which states count as failed. -/
theorem countFailed_map_strip (l : List TState) :
    countFailed (l.map stripDetails) = countFailed l := by
  unfold countFailed
  rw [List.countP_map]
  rfl

/-- Running a list of child calls from a store with no slot at or above the
starting dynamic key executes every call afresh: the collected states are the
calls' outcome states in call order and nothing is raised. -/
theorem runSteps_calls (fa : Nat) :
    ∀ (l : List CallSpec) (k : Nat) (st : EngSt),
      (∀ p ∈ st.slots, p.1 < k) →
      ((runSteps (callSteps l) fa k st).2.1.map stripDetails =
        l.map (callOutcome fa) ∧
       (runSteps (callSteps l) fa k st).2.2 = Option.none) := by
  intro l
  induction l with
  | nil => intro k st h; simp [callSteps, runSteps]
  | cons c cs ih =>
    intro k st h
    have hlk : lookupSlot st.slots k = Option.none := by
      have hf : st.slots.find? (fun p => p.1 == k) = Option.none :=
        List.find?_eq_none.mpr (fun x hx => by
          have := h x hx
          simp only [beq_iff_eq]
          omega)
      simp [lookupSlot, hf]
    simp only [callSteps] at ih
    rcases c with ⟨isSub, name, retries, body⟩
    rcases hrt : runTaskGo body fa 1 retries with ⟨s, n⟩
    have hsc : s.childFlowRunId = Option.none := by
      have := runTaskGo_no_child body retries fa 1
      rw [hrt] at this
      exact this
    have hout : callOutcome fa ⟨isSub, name, retries, body⟩ = s := by
      unfold callOutcome
      rw [hrt]
    cases isSub
    case false =>
      simp only [callSteps, List.map_cons,
        show callStep ⟨false, name, retries, body⟩ =
          FStep.callTask name retries body from rfl]
      simp only [runSteps, hlk, slotReusable, Bool.false_eq_true, if_false,
        hrt]
      have hinv : ∀ p ∈ ((k, (⟨st.nextId, s⟩ : Slot)) :: st.slots),
          p.1 < k + 1 := by
        intro p hp
        rcases List.mem_cons.mp hp with h1 | h1
        · subst h1; omega
        · have := h p h1; omega
      have hih := ih (k + 1)
        { nextId := st.nextId + 1,
          slots := (k, ⟨st.nextId, s⟩) :: st.slots,
          childRuns := st.childRuns,
          events := st.events ++ List.replicate n name } hinv
      rcases hrec : runSteps (List.map callStep cs) fa (k + 1)
        { nextId := st.nextId + 1,
          slots := (k, ⟨st.nextId, s⟩) :: st.slots,
          childRuns := st.childRuns,
          events := st.events ++ List.replicate n name } with ⟨st2, ll, rr⟩
      rw [hrec] at hih
      simp only [hrec] at hih ⊢
      simp [hih.1, hih.2, hout, stripDetails_eq_self s hsc]
    case true =>
      simp only [callSteps, List.map_cons,
        show callStep ⟨true, name, retries, body⟩ =
          FStep.callSub name retries body from rfl]
      simp only [runSteps, hlk, slotReusable, Bool.false_eq_true, if_false,
        hrt]
      have hinv : ∀ p ∈ ((k,
          (⟨st.nextId, ⟨s.type, s.message, s.data, some (st.nextId + 1)⟩⟩ :
            Slot)) :: st.slots), p.1 < k + 1 := by
        intro p hp
        rcases List.mem_cons.mp hp with h1 | h1
        · subst h1; omega
        · have := h p h1; omega
      have hih := ih (k + 1)
        { nextId := st.nextId + 1 + 1,
          slots := (k, ⟨st.nextId,
            ⟨s.type, s.message, s.data, some (st.nextId + 1)⟩⟩) :: st.slots,
          childRuns := st.childRuns ++ [⟨st.nextId + 1, st.nextId, s⟩],
          events := st.events ++ List.replicate n name } hinv
      rcases hrec : runSteps (List.map callStep cs) fa (k + 1)
        { nextId := st.nextId + 1 + 1,
          slots := (k, ⟨st.nextId,
            ⟨s.type, s.message, s.data, some (st.nextId + 1)⟩⟩) :: st.slots,
          childRuns := st.childRuns ++ [⟨st.nextId + 1, st.nextId, s⟩],
          events := st.events ++ List.replicate n name } with ⟨st2, ll, rr⟩
      rw [hrec] at hih
      simp only [hrec] at hih ⊢
      have hsyn : stripDetails ⟨s.type, s.message, s.data,
          some (st.nextId + 1)⟩ = s := by
        rw [show stripDetails ⟨s.type, s.message, s.data,
          some (st.nextId + 1)⟩ = stripDetails s from rfl]
        exact stripDetails_eq_self s hsc
      simp [hih.1, hih.2, hout, hsyn]

/-- C4: a flow whose body makes child calls and returns nothing gets, as its
final state's data, the children's states in call order; the final state is
FAILED with message "k/n states failed." when k ≥ 1 of the n contained states
are failed, else COMPLETED. -/
theorem flow_aggregates_child_states (l : List CallSpec) (hl : l ≠ []) :
    (fdataStates (runFlow ⟨0, callSteps l, .retNone⟩).final.data).map
        (fun c => c.map stripDetails) = some (l.map (callOutcome 1)) ∧
    (countFailed (l.map (callOutcome 1)) = 0 →
      (runFlow ⟨0, callSteps l, .retNone⟩).final.type = .COMPLETED) ∧
    (1 ≤ countFailed (l.map (callOutcome 1)) →
      (runFlow ⟨0, callSteps l, .retNone⟩).final.type = .FAILED ∧
      (runFlow ⟨0, callSteps l, .retNone⟩).final.message =
        s!"{countFailed (l.map (callOutcome 1))}/{l.length} states failed.")
    := by
  rcases hrs : runSteps (callSteps l) 1 0 EngSt.empty with ⟨st', c, raised⟩
  have h := runSteps_calls 1 l 0 EngSt.empty (by simp [EngSt.empty])
  rw [hrs] at h
  obtain ⟨hmap, hraised⟩ := h
  subst hraised
  have hcne : c ≠ [] := by
    intro hc
    subst hc
    simp only [List.map_nil] at hmap
    exact hl (List.map_eq_nil_iff.mp hmap.symm)
  have hfin : (runFlow ⟨0, callSteps l, .retNone⟩).final =
      aggregateStates c := by
    show (flowLoop ⟨0, callSteps l, .retNone⟩ 1 EngSt.empty 0).final = _
    simp only [flowLoop]
    rw [hrs]
    cases c with
    | nil => exact absurd rfl hcne
    | cons a rest => simp [attemptState]
  have hcount : countFailed c = countFailed (l.map (callOutcome 1)) := by
    rw [← hmap, countFailed_map_strip]
  have hlen : c.length = l.length := by
    have := congrArg List.length hmap
    simpa using this
  refine ⟨?_, ?_, ?_⟩
  · rw [hfin]
    unfold aggregateStates
    by_cases h0 : countFailed c = 0 <;>
      simp [h0, fdataStates, hmap]
  · intro h0
    have hc0 : countFailed c = 0 := hcount.trans h0
    rw [hfin]
    unfold aggregateStates
    simp [hc0]
  · intro h1
    have hne : countFailed c ≠ 0 := by rw [hcount]; omega
    have hagg : aggregateStates c =
        ⟨.FAILED, s!"{countFailed c}/{c.length} states failed.",
          .states c⟩ := by
      unfold aggregateStates
      simp [hne]
    rw [hfin, hagg]
    refine ⟨rfl, ?_⟩
    show s!"{countFailed c}/{c.length} states failed." = _
    rw [hcount, hlen]

/-- Witness for C4: the three calls of the test — two failing, one
succeeding — give a FAILED aggregate with message "2/3 states failed." and
the three child states as data. -/
theorem flow_aggregates_child_states_witness :
    (runFlow ⟨0, callSteps c4calls, .retNone⟩).final.type = .FAILED ∧
    (runFlow ⟨0, callSteps c4calls, .retNone⟩).final.message =
      s!"{countFailed (c4calls.map (callOutcome 1))}/{c4calls.length} states failed." ∧
    (runFlow ⟨0, callSteps c4calls, .retNone⟩).final.message =
      "2/3 states failed." ∧
    (fdataStates (runFlow ⟨0, callSteps c4calls, .retNone⟩).final.data).map
        (fun c => c.map stripDetails) = some (c4calls.map (callOutcome 1)) := by
  have h := flow_aggregates_child_states c4calls (by simp [c4calls])
  exact ⟨(h.2.2 (by decide)).1, (h.2.2 (by decide)).2, rfl, h.1⟩

/-- Adding a fresh (or reset) ordinary task-run entry preserves the
parent/child link invariant: the new entry carries no child link and all
existing records persist. -/
theorem linkInv_addTask (st : EngSt) (h : linkInv st) (k tid nid : Nat)
    (s : TState) (hs : s.childFlowRunId = Option.none) (ev : List String) :
    linkInv { nextId := nid, slots := (k, ⟨tid, s⟩) :: st.slots,
              childRuns := st.childRuns, events := ev } := by
  constructor
  · intro c hc
    obtain ⟨p, hp, h1, h2⟩ := h.1 c hc
    exact ⟨p, List.mem_cons_of_mem _ hp, h1, h2⟩
  · intro p hp cid hcid
    rcases List.mem_cons.mp hp with h1 | h1
    · subst h1
      have hx : s.childFlowRunId = some cid := hcid
      rw [hs] at hx
      cases hx
    · exact h.2 p h1 cid hcid

/-- Creating a subflow invocation record — a synthetic task-run entry linked
to a fresh child flow run — preserves the parent/child link invariant: the
new pair links mutually and all existing records persist. -/
theorem linkInv_addSub (st : EngSt) (h : linkInv st) (k tid nid cid : Nat)
    (s : TState) (ev : List String) :
    linkInv { nextId := nid,
              slots := (k, ⟨tid, ⟨s.type, s.message, s.data, some cid⟩⟩) ::
                st.slots,
              childRuns := st.childRuns ++ [⟨cid, tid, s⟩],
              events := ev } := by
  constructor
  · intro c hc
    rcases List.mem_append.mp hc with h1 | h1
    · obtain ⟨p, hp, hA, hB⟩ := h.1 c h1
      exact ⟨p, List.mem_cons_of_mem _ hp, hA, hB⟩
    · have hce : c = ⟨cid, tid, s⟩ := by simpa using h1
      subst hce
      exact ⟨(k, ⟨tid, ⟨s.type, s.message, s.data, some cid⟩⟩),
        List.mem_cons_self _ _, rfl, rfl⟩
  · intro p hp cid2 hcid
    rcases List.mem_cons.mp hp with h1 | h1
    · subst h1
      have hx : some cid = some cid2 := hcid
      have hcc : cid = cid2 := Option.some.inj hx
      subst hcc
      exact ⟨⟨cid, tid, s⟩, List.mem_append_right _ (by simp), rfl, rfl⟩
    · obtain ⟨c, hcm, hA, hB⟩ := h.2 p h1 cid2 hcid
      exact ⟨c, List.mem_append_left _ hcm, hA, hB⟩

/-- Executing flow-body steps preserves the parent/child link invariant. -/
theorem runSteps_linkInv (fa : Nat) :
    ∀ (steps : List FStep) (k : Nat) (st : EngSt),
      linkInv st → linkInv (runSteps steps fa k st).1 := by
  intro steps
  induction steps with
  | nil => intro k st h; simpa [runSteps] using h
  | cons step rest ih =>
    intro k st h
    cases step with
    | raiseWhen p msg =>
      cases hp : p fa with
      | true => simpa [runSteps, hp] using h
      | false => simpa [runSteps, hp] using ih (k + 1) st h
    | callTask name retries body =>
      rcases hrt : runTaskGo body fa 1 retries with ⟨s, n⟩
      have hsc : s.childFlowRunId = Option.none := by
        have := runTaskGo_no_child body retries fa 1
        rw [hrt] at this
        exact this
      rcases hc : lookupSlot st.slots k with _ | sl
      · have h1 := linkInv_addTask st h k st.nextId (st.nextId + 1) s hsc
          (st.events ++ List.replicate n name)
        rcases hrec : runSteps rest fa (k + 1)
          { nextId := st.nextId + 1,
            slots := (k, ⟨st.nextId, s⟩) :: st.slots,
            childRuns := st.childRuns,
            events := st.events ++ List.replicate n name } with ⟨st2, ll, rr⟩
        have h2 := ih (k + 1) _ h1
        rw [hrec] at h2
        simpa [runSteps, hc, slotReusable, hrt, hrec] using h2
      · cases hre : (sl.state.type == StateType.COMPLETED) with
        | true =>
          rcases hrec : runSteps rest fa (k + 1) st with ⟨st2, ll, rr⟩
          have h2 := ih (k + 1) st h
          rw [hrec] at h2
          simpa [runSteps, hc, slotReusable, hre, hrec] using h2
        | false =>
          have h1 := linkInv_addTask st h k sl.taskRunId st.nextId s hsc
            (st.events ++ List.replicate n name)
          rcases hrec : runSteps rest fa (k + 1)
            { nextId := st.nextId,
              slots := (k, ⟨sl.taskRunId, s⟩) :: st.slots,
              childRuns := st.childRuns,
              events := st.events ++ List.replicate n name } with ⟨st2, ll, rr⟩
          have h2 := ih (k + 1) _ h1
          rw [hrec] at h2
          simpa [runSteps, hc, slotReusable, hre, hrt, hrec] using h2
    | callSub name retries body =>
      rcases hrt : runTaskGo body fa 1 retries with ⟨s, n⟩
      rcases hc : lookupSlot st.slots k with _ | sl
      · have h1 := linkInv_addSub st h k st.nextId (st.nextId + 1 + 1)
          (st.nextId + 1) s (st.events ++ List.replicate n name)
        rcases hrec : runSteps rest fa (k + 1)
          { nextId := st.nextId + 1 + 1,
            slots := (k, ⟨st.nextId,
              ⟨s.type, s.message, s.data, some (st.nextId + 1)⟩⟩) :: st.slots,
            childRuns := st.childRuns ++ [⟨st.nextId + 1, st.nextId, s⟩],
            events := st.events ++ List.replicate n name } with ⟨st2, ll, rr⟩
        have h2 := ih (k + 1) _ h1
        rw [hrec] at h2
        simpa [runSteps, hc, slotReusable, hrt, hrec] using h2
      · cases hre : (sl.state.type == StateType.COMPLETED) with
        | true =>
          rcases hrec : runSteps rest fa (k + 1) st with ⟨st2, ll, rr⟩
          have h2 := ih (k + 1) st h
          rw [hrec] at h2
          simpa [runSteps, hc, slotReusable, hre, hrec] using h2
        | false =>
          have h1 := linkInv_addSub st h k sl.taskRunId (st.nextId + 1)
            st.nextId s (st.events ++ List.replicate n name)
          rcases hrec : runSteps rest fa (k + 1)
            { nextId := st.nextId + 1,
              slots := (k, ⟨sl.taskRunId,
                ⟨s.type, s.message, s.data, some st.nextId⟩⟩) :: st.slots,
              childRuns := st.childRuns ++ [⟨st.nextId, sl.taskRunId, s⟩],
              events := st.events ++ List.replicate n name } with ⟨st2, ll, rr⟩
          have h2 := ih (k + 1) _ h1
          rw [hrec] at h2
          simpa [runSteps, hc, slotReusable, hre, hrt, hrec] using h2

/-- The retry loop preserves the parent/child link invariant. -/
theorem flowLoop_linkInv (spec : FlowSpec) :
    ∀ r fa st, linkInv st → linkInv (flowLoop spec fa st r).st := by
  intro r
  induction r with
  | zero =>
    intro fa st h
    rcases hrs : runSteps spec.steps fa 0 st with ⟨st', c, raised⟩
    have h2 := runSteps_linkInv fa spec.steps 0 st h
    rw [hrs] at h2
    simpa [flowLoop, hrs] using h2
  | succ r ih =>
    intro fa st h
    rcases hrs : runSteps spec.steps fa 0 st with ⟨st', c, raised⟩
    have h2 := runSteps_linkInv fa spec.steps 0 st h
    rw [hrs] at h2
    cases hf : ((attemptState spec.ret c raised).type == StateType.FAILED) with
    | true =>
      have h3 := ih (fa + 1) st' h2
      simpa [flowLoop, hrs, hf] using h3
    | false => simpa [flowLoop, hrs, hf] using h2

/-- C5: after any flow run, every child flow run ever created points back,
via `parent_task_run_id`, to a synthetic task-run record in the parent whose
state's `child_flow_run_id` points at that child, and conversely every
task-run state carrying a child link points at a child flow run that points
back at it — with or without retries; in the concrete retrying-subflow
scenario the superseded child keeps its failed record while the current slot
links mutually with the fresh child. -/
theorem subflow_links_agree (spec : FlowSpec) :
    linkInv (runFlow spec).st ∧
    (runFlow subflowRetrySpec).st.childRuns =
      [⟨1, 0, ⟨.FAILED, "", .exn "ValueError", Option.none⟩⟩,
       ⟨2, 0, ⟨.COMPLETED, "", .value "hello", Option.none⟩⟩] ∧
    lookupSlot (runFlow subflowRetrySpec).st.slots 0 =
      some ⟨0, ⟨.COMPLETED, "", .value "hello", some 2⟩⟩ := by
  refine ⟨?_, rfl, rfl⟩
  unfold runFlow
  apply flowLoop_linkInv
  constructor
  · intro c hc
    exact absurd hc (List.not_mem_nil c)
  · intro p hp
    exact absurd hp (List.not_mem_nil p)

end Prefect
